import Mathlib

/-!
Verification of the post-build asset-processing plugin
(`post-build-assets-processor-plugin.ts`) of the ViteMPA repository.

The TypeScript source is shallowly embedded below.  JavaScript strings are
modelled by Lean `String`, and the JavaScript string primitives used by the
source (`startsWith`, `slice`, `replace(/^\/+/, '')`, `split`, `trim`,
`endsWith`, `toLowerCase`) are defined explicitly over the underlying
character list so that they can be reasoned about.  JavaScript objects used
as string-to-string dictionaries (`AssetMappings`, the `entries` object of
the scanner) are modelled as association lists with JavaScript object
semantics: property update overwrites in place, enumeration follows
insertion order, and a truthiness test on a looked-up value treats the
empty string as absent (`if (obj[k])` is false for `""`).
-/

namespace ViteMPA

/-- JavaScript `s.startsWith(pre)`: `pre` is a prefix of `s`. -/
def jsStartsWith (s pre : String) : Bool :=
  pre.data.isPrefixOf s.data

/-- JavaScript `s.endsWith(suf)`: `suf` is a suffix of `s`. -/
def jsEndsWith (s suf : String) : Bool :=
  suf.data.isSuffixOf s.data

/-- JavaScript `s.length` (code-unit count; code points for the ASCII data
handled by the plugin). -/
def jsLength (s : String) : Nat :=
  s.data.length

/-- JavaScript `s.slice(n)`: drop the first `n` characters. -/
def jsDrop (s : String) (n : Nat) : String :=
  ⟨s.data.drop n⟩

/-- JavaScript `s.substring(0, n)` / hash truncation: take the first `n`
characters. -/
def jsTake (s : String) (n : Nat) : String :=
  ⟨s.data.take n⟩

/-- JavaScript `s.replace(/^\/+/, '')`: remove every leading slash. -/
def stripLeadingSlashes (s : String) : String :=
  ⟨s.data.dropWhile (fun c => c == '/')⟩

/-- JavaScript `s.split(/[?#]/)[0]`: the part of `s` before the first `?`
or `#`. -/
def takeUntilQueryHash (s : String) : String :=
  ⟨s.data.takeWhile (fun c => !(c == '?' || c == '#'))⟩

/-- JavaScript `s.toLowerCase()` restricted to ASCII case mapping. -/
def jsToLower (s : String) : String :=
  ⟨s.data.map Char.toLower⟩

/-- JavaScript `s.trim()` (ASCII whitespace). -/
def jsTrim (s : String) : String :=
  ⟨(((s.data.dropWhile Char.isWhitespace).reverse.dropWhile Char.isWhitespace).reverse)⟩

/-- Asset configuration record (`interface AssetConfig`). -/
structure AssetConfig where
  srcDir : String
  outputDir : String
  assetsSubdir : String
  siteBaseUrl : String
deriving DecidableEq

/-- An asset reference found while scanning (`interface AssetEntry`). -/
structure AssetEntry where
  originalPath : String
  fullPath : String
deriving DecidableEq

/-- The `AssetMappings` dictionary: a JavaScript object mapping original
asset paths to hashed output paths, modelled as an insertion-ordered
association list with unique keys maintained by `insertKV`. -/
def AssetMappings := List (String × String)

instance : DecidableEq AssetMappings := by
  unfold AssetMappings
  infer_instance

/-- Property read `obj[k]`: the value of key `k`, if present. -/
def lookupKV (m : List (String × String)) (k : String) : Option String :=
  match m with
  | [] => none
  | (k', v') :: rest => if k' = k then some v' else lookupKV rest k

/-- Property write `obj[k] = v`: overwrite the binding in place, or append
a fresh one. -/
def insertKV (m : List (String × String)) (k v : String) : List (String × String) :=
  match m with
  | [] => [(k, v)]
  | (k', v') :: rest => if k' = k then (k, v) :: rest else (k', v') :: insertKV rest k v

/-- JavaScript truthiness test `if (obj[k])` for a string-valued
dictionary: a present but empty-string value is falsy. -/
def truthyLookup (m : List (String × String)) (k : String) : Option String :=
  match lookupKV m k with
  | some v => if v = "" then none else some v
  | none => none

/-- Embedding of `updateUrl` (post-build-assets-processor-plugin.ts,
lines 423-439): strip `siteBaseUrl` if the URL is absolute, strip leading
slashes to form the lookup key, and rebuild the URL in the same form from
the mapped hashed path when the lookup is truthy. -/
def updateUrl (url : String) (cfg : AssetConfig) (m : AssetMappings) : String :=
  let isAbsolute := jsStartsWith url cfg.siteBaseUrl
  let assetPath := if isAbsolute then jsDrop url (jsLength cfg.siteBaseUrl) else url
  let assetPath := stripLeadingSlashes assetPath
  match truthyLookup m assetPath with
  | some hashedPath =>
      if isAbsolute then cfg.siteBaseUrl ++ "/" ++ hashedPath else "/" ++ hashedPath
  | none => url

/-- The lookup key `updateUrl` derives from a URL: the URL with the
`siteBaseUrl` prefix removed when present and leading slashes stripped. -/
def deriveKey (url : String) (cfg : AssetConfig) : String :=
  stripLeadingSlashes
    (if jsStartsWith url cfg.siteBaseUrl then jsDrop url (jsLength cfg.siteBaseUrl) else url)

/-- Configuration used by the repository's build (`vite.config.ts`). -/
def testConfig : AssetConfig :=
  { srcDir := "src", outputDir := "dist", assetsSubdir := "assets",
    siteBaseUrl := "https://test.com" }

/-- Splitting a character list at every occurrence of a separator,
JavaScript `String.prototype.split` style: `"" ↦ [""]`, separators at the
ends produce empty pieces. -/
def splitOnCharList (c : Char) : List Char → List (List Char)
  | [] => [[]]
  | x :: xs =>
    let r := splitOnCharList c xs
    if x == c then [] :: r
    else
      match r with
      | [] => [[x]]
      | h :: t => (x :: h) :: t

/-- JavaScript `s.split(c)` for a single-character separator. -/
def jsSplitChar (c : Char) (s : String) : List String :=
  (splitOnCharList c s.data).map (fun l => ⟨l⟩)

/-- Result of Node's `path.parse`: directory part, filename without
extension, and extension (including the dot). -/
structure PathParts where
  dir : String
  name : String
  ext : String
deriving DecidableEq

/-- Model of Node `path.parse` for POSIX-style relative paths: `dir` is
everything before the final slash (empty when there is none), and the
extension starts at the final dot of the basename unless that dot is its
first character. -/
def parsePath (s : String) : PathParts :=
  let segs := jsSplitChar '/' s
  let base := segs.getLast?.getD ""
  let dir := String.intercalate "/" segs.dropLast
  let cs := base.data
  match cs.reverse.findIdx? (fun c => c == '.') with
  | some i =>
    let dotPos := cs.length - 1 - i
    if dotPos = 0 then ⟨dir, base, ""⟩
    else ⟨dir, ⟨cs.take dotPos⟩, ⟨cs.drop dotPos⟩⟩
  | none => ⟨dir, base, ""⟩

/-- Node `path.basename`: the final path segment. -/
def baseNameOf (s : String) : String :=
  (jsSplitChar '/' s).getLast?.getD ""

/-- JavaScript `s.replace(/\\/g, '/')`. -/
def backslashToSlash (s : String) : String :=
  ⟨s.data.map (fun c => if c = '\\' then '/' else c)⟩

/-- Model of Node `path.relative(base, file)` for the only case the
plugin exercises: `file` lies inside `base`, so the result is the suffix
after `base ++ "/"`. -/
def relativeTo (base file : String) : String :=
  if jsStartsWith file (base ++ "/") then jsDrop file (jsLength (base ++ "/")) else file

/-- JavaScript `s.replace(/^assets\//, '')`: strip one literal `assets/`
prefix.  The directory string `"assets"` (no trailing slash) is not
changed by this regex. -/
def stripAssetsDirOnce (s : String) : String :=
  if jsStartsWith s "assets/" then jsDrop s (jsLength "assets/") else s

/-- Model of Node `path.join(a, b)` for the shapes the plugin produces:
joining with an empty component returns the other component unchanged. -/
def joinPath (a b : String) : String :=
  if a = "" then b else if b = "" then a else a ++ "/" ++ b

/-- Embedding of `createAssetMappings` (post-build-assets-processor-plugin.ts,
lines 371-412).  The `outputFiles` parameter stands for the result of
`glob.sync` over the assets directory with the extension allow-list; each
file is reduced to its path relative to `baseDir`, files whose
name-without-extension has no `-` are skipped, the final `-`-segment is
dropped to recover the basename, the literal prefix `assets/` is stripped
from the directory, and the key `directory/baseName.ext` (or the bare
`baseName.ext` when the directory string is empty) is mapped to the
relative path. -/
def createAssetMappings (baseDir : String) (outputFiles : List String) : AssetMappings :=
  outputFiles.foldl
    (fun mappings outputFile =>
      let relativePath := backslashToSlash (relativeTo baseDir outputFile)
      let parsed := parsePath relativePath
      let parts := jsSplitChar '-' parsed.name
      if parts.length < 2 then mappings
      else
        let baseName := String.intercalate "-" parts.dropLast
        let directory := stripAssetsDirOnce parsed.dir
        let fullKey :=
          if directory ≠ "" then directory ++ "/" ++ baseName ++ parsed.ext
          else baseName ++ parsed.ext
        let mappings := insertKV mappings fullKey relativePath
        if directory = "" then insertKV mappings (baseName ++ parsed.ext) relativePath
        else mappings)
    []

/-- Round constants of MD5 (RFC 1321). -/
def md5K : List Nat :=
  [0xd76aa478, 0xe8c7b756, 0x242070db, 0xc1bdceee,
   0xf57c0faf, 0x4787c62a, 0xa8304613, 0xfd469501,
   0x698098d8, 0x8b44f7af, 0xffff5bb1, 0x895cd7be,
   0x6b901122, 0xfd987193, 0xa679438e, 0x49b40821,
   0xf61e2562, 0xc040b340, 0x265e5a51, 0xe9b6c7aa,
   0xd62f105d, 0x02441453, 0xd8a1e681, 0xe7d3fbc8,
   0x21e1cde6, 0xc33707d6, 0xf4d50d87, 0x455a14ed,
   0xa9e3e905, 0xfcefa3f8, 0x676f02d9, 0x8d2a4c8a,
   0xfffa3942, 0x8771f681, 0x6d9d6122, 0xfde5380c,
   0xa4beea44, 0x4bdecfa9, 0xf6bb4b60, 0xbebfbc70,
   0x289b7ec6, 0xeaa127fa, 0xd4ef3085, 0x04881d05,
   0xd9d4d039, 0xe6db99e5, 0x1fa27cf8, 0xc4ac5665,
   0xf4292244, 0x432aff97, 0xab9423a7, 0xfc93a039,
   0x655b59c3, 0x8f0ccc92, 0xffeff47d, 0x85845dd1,
   0x6fa87e4f, 0xfe2ce6e0, 0xa3014314, 0x4e0811a1,
   0xf7537e82, 0xbd3af235, 0x2ad7d2bb, 0xeb86d391]

/-- Per-round left-rotation amounts of MD5. -/
def md5S : List Nat :=
  [7, 12, 17, 22, 7, 12, 17, 22, 7, 12, 17, 22, 7, 12, 17, 22,
   5, 9, 14, 20, 5, 9, 14, 20, 5, 9, 14, 20, 5, 9, 14, 20,
   4, 11, 16, 23, 4, 11, 16, 23, 4, 11, 16, 23, 4, 11, 16, 23,
   6, 10, 15, 21, 6, 10, 15, 21, 6, 10, 15, 21, 6, 10, 15, 21]

/-- Addition modulo `2^32`. -/
def add32 (x y : Nat) : Nat := (x + y) % 4294967296

/-- Bitwise complement on 32 bits. -/
def not32 (x : Nat) : Nat := 4294967295 ^^^ x

/-- Left rotation of a 32-bit word. -/
def rotl32 (x n : Nat) : Nat := ((x <<< n) ||| (x >>> (32 - n))) &&& 4294967295

/-- Running state of the MD5 compression function. -/
structure MD5State where
  a : Nat
  b : Nat
  c : Nat
  d : Nat

/-- Four bytes, little-endian, of a 32-bit word. -/
def le4 (n : Nat) : List Nat :=
  [n % 256, n / 256 % 256, n / 65536 % 256, n / 16777216 % 256]

/-- Eight bytes, little-endian, of a 64-bit length field. -/
def le8 (n : Nat) : List Nat :=
  le4 (n % 4294967296) ++ le4 (n / 4294967296)

/-- Group a 64-byte chunk into sixteen little-endian 32-bit words. -/
def toWordsLE : List Nat → List Nat
  | b0 :: b1 :: b2 :: b3 :: rest =>
    (b0 + 256 * b1 + 65536 * b2 + 16777216 * b3) :: toWordsLE rest
  | _ => []

/-- One of the 64 MD5 rounds. -/
def md5Round (M : List Nat) (st : MD5State) (i : Nat) : MD5State :=
  let f :=
    if i < 16 then (st.b &&& st.c) ||| (not32 st.b &&& st.d)
    else if i < 32 then (st.d &&& st.b) ||| (not32 st.d &&& st.c)
    else if i < 48 then st.b ^^^ st.c ^^^ st.d
    else st.c ^^^ (st.b ||| not32 st.d)
  let g :=
    if i < 16 then i
    else if i < 32 then (5 * i + 1) % 16
    else if i < 48 then (3 * i + 5) % 16
    else (7 * i) % 16
  let tmp := add32 (add32 (add32 st.a f) (md5K.getD i 0)) (M.getD g 0)
  ⟨st.d, add32 st.b (rotl32 tmp (md5S.getD i 0)), st.b, st.c⟩

/-- MD5 compression of one 64-byte chunk. -/
def md5Chunk (st : MD5State) (chunk : List Nat) : MD5State :=
  let M := toWordsLE chunk
  let r := (List.range 64).foldl (md5Round M) st
  ⟨add32 st.a r.a, add32 st.b r.b, add32 st.c r.c, add32 st.d r.d⟩

/-- MD5 padding: append `0x80`, zero bytes up to 56 modulo 64, and the
bit length as a little-endian 64-bit field. -/
def md5Pad (msg : List Nat) : List Nat :=
  let len := msg.length
  let zeros := (120 - (len + 1) % 64) % 64
  msg ++ [128] ++ List.replicate zeros 0 ++ le8 (len * 8)

/-- Fold the compression function over all 64-byte chunks (fuel-indexed). -/
def md5Chunks : Nat → MD5State → List Nat → MD5State
  | 0, st, _ => st
  | _ + 1, st, [] => st
  | fuel + 1, st, l => md5Chunks fuel (md5Chunk st (l.take 64)) (l.drop 64)

/-- MD5 digest of a byte sequence: sixteen bytes. -/
def md5Digest (msg : List Nat) : List Nat :=
  let p := md5Pad msg
  let st := md5Chunks p.length ⟨0x67452301, 0xefcdab89, 0x98badcfe, 0x10325476⟩ p
  le4 st.a ++ le4 st.b ++ le4 st.c ++ le4 st.d

/-- Lowercase hexadecimal digit. -/
def hexDigitChar (n : Nat) : Char :=
  "0123456789abcdef".data.getD n '0'

/-- Two lowercase hexadecimal characters of one byte. -/
def byteToHex (b : Nat) : List Char :=
  [hexDigitChar (b / 16), hexDigitChar (b % 16)]

/-- Lowercase hexadecimal MD5 digest, as produced by
`crypto.createHash('md5').update(content).digest('hex')`. -/
def md5Hex (msg : List Nat) : String :=
  ⟨((md5Digest msg).map byteToHex).flatten⟩

/-- Loop body of `processMissingAssets` for one missing asset: read the
source bytes (a `none` result models the I/O failure swallowed by the
`try/catch`, which leaves the mappings untouched and moves on), hash them,
build `basename-<hash><ext>` inside the same directory under `assetsDir`,
and record the `baseDir`-relative path of the copy. -/
def pmaStep (baseDir assetsDir : String) (sourceAssets : List (String × String))
    (readFile : String → Option (List Nat)) (updatedMappings : AssetMappings)
    (missingAsset : String) : AssetMappings :=
  match lookupKV sourceAssets missingAsset with
  | none => updatedMappings
  | some sourcePath =>
    match readFile sourcePath with
    | none => updatedMappings
    | some fileContent =>
      let hash := jsTake (md5Hex fileContent) 8
      let parsed := parsePath missingAsset
      let targetDir := joinPath assetsDir parsed.dir
      let hashedFilename := parsed.name ++ "-" ++ hash ++ parsed.ext
      let targetPath := joinPath targetDir hashedFilename
      let relativeTargetPath := backslashToSlash (relativeTo baseDir targetPath)
      insertKV updatedMappings missingAsset relativeTargetPath

/-- Embedding of `processMissingAssets` (post-build-assets-processor-plugin.ts,
lines 284-359).  The `sourceAssets` parameter stands for the entries object
returned by `findUnreferencedAssets` over the source tree, and `readFile`
models the filesystem reads and copies (`none` = the copy fails and the
`catch` block logs and continues).  An asset is missing when
`!assetMappings[sourcePath]` holds, i.e. when its key is absent or bound to
a falsy (empty) value. -/
def processMissingAssets (baseDir assetsDir : String) (m : AssetMappings)
    (sourceAssets : List (String × String))
    (readFile : String → Option (List Nat)) : AssetMappings :=
  let missingAssets :=
    (sourceAssets.filter (fun e => (truthyLookup m e.1).isNone)).map Prod.fst
  missingAssets.foldl (pmaStep baseDir assetsDir sourceAssets readFile) m

/-- Hashed output path constructed for a recovered missing asset:
`basename-<hash><ext>` in the asset's own directory under `assetsDir`,
made relative to the output root, where `<hash>` is the first eight hex
characters of the MD5 of the source bytes. -/
def missingAssetTarget (baseDir assetsDir k : String) (content : List Nat) : String :=
  backslashToSlash (relativeTo baseDir (joinPath (joinPath assetsDir (parsePath k).dir)
    ((parsePath k).name ++ "-" ++ jsTake (md5Hex content) 8 ++ (parsePath k).ext)))

/-- JSON values as produced by `JSON.parse`.  Numeric literals are
modelled as integers; fractional and exponent forms are outside the model
(none of the plugin's data paths depend on them). -/
inductive Json where
  | null : Json
  | bool (b : Bool) : Json
  | num (n : Int) : Json
  | str (s : String) : Json
  | arr (items : List Json) : Json
  | obj (members : List (String × Json)) : Json

/-- The opening-brace character. -/
def lbraceChar : Char := Char.ofNat 123

/-- The closing-brace character. -/
def rbraceChar : Char := Char.ofNat 125

/-- Property read on a parsed JSON object. -/
def lookupJson (kvs : List (String × Json)) (k : String) : Option Json :=
  match kvs with
  | [] => none
  | (k', v') :: rest => if k' = k then some v' else lookupJson rest k

/-- Property write on a parsed JSON object: overwrite in place, or append. -/
def setJson (kvs : List (String × Json)) (k : String) (v : Json) :
    List (String × Json) :=
  match kvs with
  | [] => [(k, v)]
  | (k', v') :: rest => if k' = k then (k, v) :: rest else (k', v') :: setJson rest k v

/-- JSON whitespace accepted by `JSON.parse`. -/
def jsonWs (c : Char) : Bool :=
  c == ' ' || c == '\t' || c == '\n' || c == '\r'

/-- Skip JSON whitespace. -/
def skipWs (l : List Char) : List Char :=
  l.dropWhile jsonWs

/-- Value of a hexadecimal digit. -/
def hexVal (c : Char) : Option Nat :=
  if '0' ≤ c ∧ c ≤ '9' then some (c.toNat - 48)
  else if 'a' ≤ c ∧ c ≤ 'f' then some (c.toNat - 87)
  else if 'A' ≤ c ∧ c ≤ 'F' then some (c.toNat - 55)
  else none

/-- Single-character JSON string escapes. -/
def escDecode (c : Char) : Option Char :=
  if c = '"' then some '"'
  else if c = '\\' then some '\\'
  else if c = '/' then some '/'
  else if c = 'n' then some '\n'
  else if c = 't' then some '\t'
  else if c = 'r' then some '\r'
  else if c = 'b' then some (Char.ofNat 8)
  else if c = 'f' then some (Char.ofNat 12)
  else none

/-- Decimal digit test. -/
def isDigitChar (c : Char) : Bool :=
  '0' ≤ c && c ≤ '9'

/-- Numeric value of a digit run. -/
def digitsToNat (l : List Char) : Nat :=
  l.foldl (fun acc c => acc * 10 + (c.toNat - 48)) 0

/-- Parse the body of a JSON string literal after the opening quote,
returning the decoded characters and the remainder after the closing
quote.  Unescaped control characters are rejected, as by `JSON.parse`. -/
def parseStringBody : Nat → List Char → Option (List Char × List Char)
  | 0, _ => none
  | fuel + 1, l =>
    match l with
    | [] => none
    | c :: rest =>
      if c = '"' then some ([], rest)
      else if c = '\\' then
        match rest with
        | [] => none
        | e :: rest2 =>
          if e = 'u' then
            match rest2 with
            | h1 :: h2 :: h3 :: h4 :: rest3 =>
              match hexVal h1, hexVal h2, hexVal h3, hexVal h4 with
              | some a, some b, some c2, some d =>
                match parseStringBody fuel rest3 with
                | some (cs, r) => some (Char.ofNat (4096 * a + 256 * b + 16 * c2 + d) :: cs, r)
                | none => none
              | _, _, _, _ => none
            | _ => none
          else
            match escDecode e with
            | some ch =>
              match parseStringBody fuel rest2 with
              | some (cs, r) => some (ch :: cs, r)
              | none => none
            | none => none
      else if c.toNat < 32 then none
      else
        match parseStringBody fuel rest with
        | some (cs, r) => some (c :: cs, r)
        | none => none

/-- Parse a JSON integer literal (optional minus, no leading zeros, no
fraction or exponent in this model). -/
def parseNumberToken (l : List Char) : Option (Json × List Char) :=
  let (neg, l1) :=
    match l with
    | '-' :: r => (true, r)
    | _ => (false, l)
  match l1 with
  | [] => none
  | d :: rest =>
    if d = '0' then
      match rest with
      | c :: _ =>
        if isDigitChar c || c = '.' || c = 'e' || c = 'E' then none
        else if neg then none else some (Json.num 0, rest)
      | [] => if neg then none else some (Json.num 0, [])
    else if isDigitChar d then
      let ds := (d :: rest).takeWhile isDigitChar
      let rest2 := (d :: rest).dropWhile isDigitChar
      match rest2 with
      | c :: _ =>
        if c = '.' || c = 'e' || c = 'E' then none
        else
          let n : Int := Int.ofNat (digitsToNat ds)
          some (Json.num (if neg then -n else n), rest2)
      | [] =>
        let n : Int := Int.ofNat (digitsToNat ds)
        some (Json.num (if neg then -n else n), [])
    else none

mutual

/-- Fuel-indexed recursive-descent parser for one JSON value. -/
def parseValue : Nat → List Char → Option (Json × List Char)
  | 0, _ => none
  | fuel + 1, l =>
    match l with
    | 'n' :: 'u' :: 'l' :: 'l' :: rest => some (Json.null, rest)
    | 't' :: 'r' :: 'u' :: 'e' :: rest => some (Json.bool true, rest)
    | 'f' :: 'a' :: 'l' :: 's' :: 'e' :: rest => some (Json.bool false, rest)
    | c :: rest =>
      if c = '"' then
        match parseStringBody (fuel + 1) rest with
        | some (cs, rest2) => some (Json.str ⟨cs⟩, rest2)
        | none => none
      else if c = lbraceChar then
        let rest2 := skipWs rest
        match rest2 with
        | d :: rest3 => if d = rbraceChar then some (Json.obj [], rest3) else parseMembers fuel rest2 []
        | [] => none
      else if c = '[' then
        let rest2 := skipWs rest
        match rest2 with
        | d :: rest3 => if d = ']' then some (Json.arr [], rest3) else parseItems fuel rest2 []
        | [] => none
      else parseNumberToken (c :: rest)
    | [] => none

/-- Parse the members of a JSON object (duplicate keys: last value wins,
first position kept, as by `JSON.parse`). -/
def parseMembers : Nat → List Char → List (String × Json) → Option (Json × List Char)
  | 0, _, _ => none
  | fuel + 1, l, acc =>
    match l with
    | c :: rest =>
      if c = '"' then
        match parseStringBody (fuel + 1) rest with
        | some (kcs, rest2) =>
          match skipWs rest2 with
          | ':' :: rest4 =>
            match parseValue fuel (skipWs rest4) with
            | some (v, rest5) =>
              let acc2 := setJson acc ⟨kcs⟩ v
              match skipWs rest5 with
              | ',' :: rest7 => parseMembers fuel (skipWs rest7) acc2
              | d :: rest7 =>
                if d = rbraceChar then some (Json.obj acc2, rest7) else none
              | [] => none
            | none => none
          | _ => none
        | none => none
      else none
    | [] => none

/-- Parse the items of a JSON array. -/
def parseItems : Nat → List Char → List Json → Option (Json × List Char)
  | 0, _, _ => none
  | fuel + 1, l, acc =>
    match parseValue fuel l with
    | some (v, rest) =>
      match skipWs rest with
      | ',' :: rest3 => parseItems fuel (skipWs rest3) (acc ++ [v])
      | ']' :: rest3 => some (Json.arr (acc ++ [v]), rest3)
      | _ => none
    | none => none

end

/-- Model of `JSON.parse`: parse one value and require only whitespace to
remain.  `none` models the exception path. -/
def parseJson (s : String) : Option Json :=
  match parseValue (s.data.length + 2) (skipWs s.data) with
  | some (v, rest) => if (skipWs rest).isEmpty then some v else none
  | none => none

/-- Characters of one JSON-escaped string character, as emitted by
`JSON.stringify`. -/
def escapeJsonChar (c : Char) : List Char :=
  if c = '"' then ['\\', '"']
  else if c = '\\' then ['\\', '\\']
  else if c = '\n' then ['\\', 'n']
  else if c = '\t' then ['\\', 't']
  else if c = '\r' then ['\\', 'r']
  else if c.toNat = 8 then ['\\', 'b']
  else if c.toNat = 12 then ['\\', 'f']
  else if c.toNat < 32 then
    ['\\', 'u', '0', '0', hexDigitChar (c.toNat / 16), hexDigitChar (c.toNat % 16)]
  else [c]

/-- JSON string literal with quotes, as emitted by `JSON.stringify`. -/
def quoteJson (s : String) : String :=
  "\"" ++ ⟨(s.data.map escapeJsonChar).flatten⟩ ++ "\""

mutual

/-- Model of compact `JSON.stringify(v)`. -/
def stringifyCompact : Json → String
  | Json.null => "null"
  | Json.bool true => "true"
  | Json.bool false => "false"
  | Json.num n => toString n
  | Json.str s => quoteJson s
  | Json.arr items => "[" ++ String.intercalate "," (compactItems items) ++ "]"
  | Json.obj members => "\x7b" ++ String.intercalate "," (compactMembers members) ++ "\x7d"

/-- Compact serializations of array items. -/
def compactItems : List Json → List String
  | [] => []
  | x :: xs => stringifyCompact x :: compactItems xs

/-- Compact serializations of object members. -/
def compactMembers : List (String × Json) → List String
  | [] => []
  | (k, v) :: rest => (quoteJson k ++ ":" ++ stringifyCompact v) :: compactMembers rest

end

/-- Indentation prefix used by `JSON.stringify(v, null, 2)`. -/
def jsonIndent (lv : Nat) : String :=
  ⟨List.replicate (2 * lv) ' '⟩

mutual

/-- Model of pretty `JSON.stringify(v, null, 2)` at nesting level `lv`. -/
def stringifyPretty (lv : Nat) : Json → String
  | Json.arr [] => "[]"
  | Json.arr (x :: xs) =>
    "[\n" ++ String.intercalate ",\n" (prettyItems (lv + 1) (x :: xs)) ++ "\n" ++
      jsonIndent lv ++ "]"
  | Json.obj [] => "\x7b\x7d"
  | Json.obj (e :: es) =>
    "\x7b\n" ++ String.intercalate ",\n" (prettyMembers (lv + 1) (e :: es)) ++ "\n" ++
      jsonIndent lv ++ "\x7d"
  | Json.null => "null"
  | Json.bool true => "true"
  | Json.bool false => "false"
  | Json.num n => toString n
  | Json.str s => quoteJson s

/-- Pretty serializations of array items, each on its own indented line. -/
def prettyItems (lv : Nat) : List Json → List String
  | [] => []
  | x :: xs => (jsonIndent lv ++ stringifyPretty lv x) :: prettyItems lv xs

/-- Pretty serializations of object members, each on its own indented line. -/
def prettyMembers (lv : Nat) : List (String × Json) → List String
  | [] => []
  | (k, v) :: rest =>
    (jsonIndent lv ++ quoteJson k ++ ": " ++ stringifyPretty lv v) :: prettyMembers lv rest

end

/-- Substring containment over character lists. -/
def listContainsSub (sub : List Char) : List Char → Bool
  | [] => sub.isEmpty
  | c :: rest => sub.isPrefixOf (c :: rest) || listContainsSub sub rest

/-- JavaScript `s.includes(sub)`. -/
def jsIncludes (s sub : String) : Bool :=
  listContainsSub sub.data s.data

/-- Key test of the JSON-LD rewriter's string branch: `image`, `logo`,
`thumbnail`, `url`, or any key containing `Image` or `image`. -/
def strUrlKey (k : String) : Bool :=
  k == "image" || k == "logo" || k == "thumbnail" || k == "url" ||
    jsIncludes k "Image" || jsIncludes k "image"

/-- Key test of the JSON-LD rewriter's image-object branch: `image`,
`logo`, or any key containing `Image` or `image`. -/
def objUrlKey (k : String) : Bool :=
  k == "image" || k == "logo" || jsIncludes k "Image" || jsIncludes k "image"

mutual

/-- Embedding of the JSON-LD `processJsonValues` walk
(post-build-assets-processor-plugin.ts, lines 690-748): objects are walked
member-wise; arrays are walked through `Object.entries`, whose numeric
index keys never satisfy the image-key tests. -/
def processJsonValues (cfg : AssetConfig) (m : AssetMappings) : Json → Json
  | Json.obj kvs => Json.obj (processMembersFix cfg m false kvs)
  | Json.arr items => Json.arr (processTopItems cfg m 0 items)
  | j => j

/-- One `[key, value]` entry of the walk.  A string under an image-like
key is rewritten; an object value additionally gets its `url` property
pre-rewritten when the key is image-like and the object has a string
`url` (the recursion then rewrites that property a second time, exactly
as the source does); arrays take the item branch. -/
def processEntryValue (cfg : AssetConfig) (m : AssetMappings) (key : String) :
    Json → Json
  | Json.str s => if strUrlKey key then Json.str (updateUrl s cfg m) else Json.str s
  | Json.arr items => Json.arr (processArrItems cfg m items)
  | Json.obj kvs =>
    let fix := objUrlKey key &&
      (match lookupJson kvs "url" with
       | some (Json.str _) => true
       | _ => false)
    Json.obj (processMembersFix cfg m fix kvs)
  | j => j

/-- Member walk of an object; when `fix` is set the string `url` member
receives `updateUrl` twice (the image-object pre-pass plus the generic
string branch). -/
def processMembersFix (cfg : AssetConfig) (m : AssetMappings) (fix : Bool) :
    List (String × Json) → List (String × Json)
  | [] => []
  | (k, v) :: rest =>
    let v' :=
      if fix && k == "url" then
        match v with
        | Json.str s => Json.str (updateUrl (updateUrl s cfg m) cfg m)
        | other => processEntryValue cfg m k other
      else processEntryValue cfg m k v
    (k, v') :: processMembersFix cfg m fix rest

/-- Items of an array reached through `Object.entries`: numeric index
keys never match the image-key tests, so items are handled by the
catch-all entry branch. -/
def processTopItems (cfg : AssetConfig) (m : AssetMappings) (i : Nat) :
    List Json → List Json
  | [] => []
  | item :: rest =>
    processEntryValue cfg m (toString i) item :: processTopItems cfg m (i + 1) rest

/-- Item branch for an array-valued member: objects and arrays recurse via
the top-level walk, strings that look like URLs (`contains 'http'` or
start with `/`) are rewritten. -/
def processArrItems (cfg : AssetConfig) (m : AssetMappings) : List Json → List Json
  | [] => []
  | item :: rest =>
    let item' :=
      match item with
      | Json.obj kvs => processJsonValues cfg m (Json.obj kvs)
      | Json.arr xs => processJsonValues cfg m (Json.arr xs)
      | Json.str s =>
        if jsIncludes s "http" || jsStartsWith s "/" then Json.str (updateUrl s cfg m)
        else Json.str s
      | other => other
    item' :: processArrItems cfg m rest

end

/-- Embedding of the JSON-LD script handler (post-build-assets-processor-plugin.ts,
lines 682-767): parse the body, compare the compact serialization of the
original against the 2-space serialization of the processed value, and
store the pretty form when they differ; a parse failure falls back to
rewriting the raw body through `updateUrl`.  The boolean is the
contribution to `fileChanged`. -/
def processJsonLdScript (cfg : AssetConfig) (m : AssetMappings)
    (scriptContent : String) : String × Bool :=
  match parseJson scriptContent with
  | some jsonContent =>
    let initialJson := stringifyCompact jsonContent
    let processed := processJsonValues cfg m jsonContent
    let updatedJson := stringifyPretty 0 processed
    if initialJson != updatedJson then (updatedJson, true) else (scriptContent, false)
  | none =>
    let updatedContent := updateUrl scriptContent cfg m
    if updatedContent != scriptContent then (updatedContent, true)
    else (scriptContent, false)

/-- The JSON-LD pass over all `application/ld+json` script bodies of one
document, in document order. -/
def processScriptsPass (cfg : AssetConfig) (m : AssetMappings) :
    List String → List String × Bool
  | [] => ([], false)
  | b :: rest =>
    let r1 := processJsonLdScript cfg m b
    let r2 := processScriptsPass cfg m rest
    (r1.1 :: r2.1, r1.2 || r2.2)

/-- Embedding of `fixMimeType` (post-build-assets-processor-plugin.ts,
lines 497-504): collapse a duplicated `image|audio|video|application`
prefix, keeping the first category. -/
def matchMimeCat (s : String) : Option (String × String) :=
  if jsStartsWith s "image/" then some ("image", jsDrop s 6)
  else if jsStartsWith s "audio/" then some ("audio", jsDrop s 6)
  else if jsStartsWith s "video/" then some ("video", jsDrop s 6)
  else if jsStartsWith s "application/" then some ("application", jsDrop s 12)
  else none

/-- Fix common issues in a MIME type string: `"<a>/<b>/rest"` with both
`a` and `b` in the category set becomes `"<a>/rest"`. -/
def fixMimeType (mimeType : String) : String :=
  if mimeType = "" then mimeType
  else
    match matchMimeCat mimeType with
    | some (p1, r1) =>
      match matchMimeCat r1 with
      | some (_, r2) => p1 ++ "/" ++ r2
      | none => mimeType
    | none => mimeType

mutual

/-- Embedding of `processManifestUrls` (post-build-assets-processor-plugin.ts,
lines 450-484) on an object or, through `Object.keys`, an array: string
values under keys other than `icons` go through `updateUrl`, array values
take the per-item branch, object values recurse. -/
def pmUrls (cfg : AssetConfig) (m : AssetMappings) : Json → Json × Bool
  | Json.obj kvs =>
    let r := pmMembers cfg m kvs
    (Json.obj r.1, r.2)
  | Json.arr items =>
    let r := pmTopItems cfg m items
    (Json.arr r.1, r.2)
  | j => (j, false)

/-- Member walk of `processManifestUrls` over an object. -/
def pmMembers (cfg : AssetConfig) (m : AssetMappings) :
    List (String × Json) → List (String × Json) × Bool
  | [] => ([], false)
  | (k, v) :: rest =>
    let r1 :=
      match v with
      | Json.str s =>
        if k == "icons" then (Json.str s, false)
        else
          let u := updateUrl s cfg m
          (Json.str u, u != s)
      | Json.arr xs =>
        let r := pmArrForEach cfg m xs
        (Json.arr r.1, r.2)
      | Json.obj kvs2 => pmUrls cfg m (Json.obj kvs2)
      | other => (other, false)
    let r2 := pmMembers cfg m rest
    ((k, r1.1) :: r2.1, r1.2 || r2.2)

/-- Entry walk of `processManifestUrls` when called on an array: the
numeric keys produced by `Object.keys` are never `icons`. -/
def pmTopItems (cfg : AssetConfig) (m : AssetMappings) :
    List Json → List Json × Bool
  | [] => ([], false)
  | item :: rest =>
    let r1 :=
      match item with
      | Json.str s =>
        let u := updateUrl s cfg m
        (Json.str u, u != s)
      | Json.arr xs =>
        let r := pmArrForEach cfg m xs
        (Json.arr r.1, r.2)
      | Json.obj kvs2 => pmUrls cfg m (Json.obj kvs2)
      | other => (other, false)
    let r2 := pmTopItems cfg m rest
    (r1.1 :: r2.1, r1.2 || r2.2)

/-- Item branch of `processManifestUrls` for an array value: string items
go through `updateUrl`, everything else is handed back to the recursive
walk (which ignores scalars). -/
def pmArrForEach (cfg : AssetConfig) (m : AssetMappings) :
    List Json → List Json × Bool
  | [] => ([], false)
  | item :: rest =>
    let r1 :=
      match item with
      | Json.str s =>
        let u := updateUrl s cfg m
        (Json.str u, u != s)
      | other => pmUrls cfg m other
    let r2 := pmArrForEach cfg m rest
    (r1.1 :: r2.1, r1.2 || r2.2)

end

/-- Embedding of the per-icon body of `updateManifestFile`
(post-build-assets-processor-plugin.ts, lines 527-549): copy the icon,
rewrite a truthy string `src` through `updateUrl`, and repair a truthy
string `type` through `fixMimeType`.  Non-object entries are left alone
in this model (the source would fault on them). -/
def processIcon (cfg : AssetConfig) (m : AssetMappings) (icon : Json) : Json × Bool :=
  match icon with
  | Json.obj kvs =>
    let r1 :=
      match lookupJson kvs "src" with
      | some (Json.str s) =>
        if s = "" then (kvs, false)
        else
          let u := updateUrl s cfg m
          (setJson kvs "src" (Json.str u), u != s)
      | _ => (kvs, false)
    let r2 :=
      match lookupJson kvs "type" with
      | some (Json.str t) =>
        if t = "" then (r1.1, false)
        else
          let ft := fixMimeType t
          if ft != t then (setJson r1.1 "type" (Json.str ft), true) else (r1.1, false)
      | _ => (r1.1, false)
    (Json.obj r2.1, r1.2 || r2.2)
  | other => (other, false)

/-- Embedding of the body of `updateManifestFile`
(post-build-assets-processor-plugin.ts, lines 515-569) after a successful
parse: map the icons array through `processIcon`, then run
`processManifestUrls`; the boolean says whether the file is written. -/
def updateManifestJson (cfg : AssetConfig) (m : AssetMappings) (manifest : Json) :
    Json × Bool :=
  let iconsPass :=
    match manifest with
    | Json.obj kvs =>
      match lookupJson kvs "icons" with
      | some (Json.arr icons) =>
        let results := icons.map (processIcon cfg m)
        (Json.obj (setJson kvs "icons" (Json.arr (results.map Prod.fst))),
          results.any Prod.snd)
      | _ => (manifest, false)
    | _ => (manifest, false)
  let urlsPass := pmUrls cfg m iconsPass.1
  (urlsPass.1, urlsPass.2 || iconsPass.2)

/-- Embedding of `updateManifestFile` at the content level: the result is
the rewritten 2-space-indented text when the manifest is written, and
`none` when it is not — including the case of malformed JSON, where the
`catch` around `JSON.parse` logs and returns without any fallback. -/
def updateManifestContent (cfg : AssetConfig) (m : AssetMappings)
    (manifestContent : String) : Option String :=
  match parseJson manifestContent with
  | none => none
  | some manifest =>
    let r := updateManifestJson cfg m manifest
    if r.2 then some (stringifyPretty 0 r.1) else none

/-- Field of a JSON object value, if any. -/
def jsonGetField (j : Json) (k : String) : Option Json :=
  match j with
  | Json.obj kvs => lookupJson kvs k
  | _ => none

/-- String field of a JSON object value, if any. -/
def jsonGetStr (j : Json) (k : String) : Option String :=
  match j with
  | Json.obj kvs =>
    match lookupJson kvs k with
    | some (Json.str s) => some s
    | _ => none
  | _ => none

/-- Element of a JSON array value, if any. -/
def jsonGetIdx (j : Json) (n : Nat) : Option Json :=
  match j with
  | Json.arr items => items[n]?
  | _ => none

/-- A DOM element as the rewriter sees it: its (lowercase) tag name and
the attributes the selectors `link[rel="manifest"]` and
`[src],[href],[content]` observe.  A missing attribute is `none`. -/
structure Element where
  tag : String
  rel : Option String := none
  src : Option String := none
  href : Option String := none
  content : Option String := none
  srcset : Option String := none
deriving DecidableEq

/-- An HTML document as the rewriter sees it: its elements in document
order and the bodies of its `application/ld+json` scripts. -/
structure HtmlDoc where
  elements : List Element
  jsonLdScripts : List String
deriving DecidableEq

/-- Splitting on whitespace runs, JavaScript `trimmed.split(/\s+/)` after
a trim: no empty pieces remain. -/
def wordsAux : List Char → List Char → List (List Char)
  | [], acc => if acc.isEmpty then [] else [acc.reverse]
  | c :: rest, acc =>
    if c.isWhitespace then
      if acc.isEmpty then wordsAux rest [] else acc.reverse :: wordsAux rest []
    else wordsAux rest (c :: acc)

/-- Whitespace-run split of a string. -/
def jsSplitWsRuns (s : String) : List String :=
  (wordsAux s.data []).map (fun l => ⟨l⟩)

/-- One comma-separated `srcset` entry: trim, split off the first
whitespace-run-separated token as the URL, rewrite it, and reattach the
descriptor (second token) when present.  Tokens beyond the second are
dropped, as by the source's destructuring. -/
def rewriteSrcsetEntry (cfg : AssetConfig) (m : AssetMappings) (srcset : String) :
    String :=
  let t := jsTrim srcset
  let ws := jsSplitWsRuns t
  let url := (ws.head?).getD ""
  let descriptor := ws[1]?
  updateUrl url cfg m ++ (match descriptor with | some d => " " ++ d | none => "")

/-- Embedding of the `srcset` handling (post-build-assets-processor-plugin.ts,
lines 655-668): split on commas, rewrite each entry, and re-join with
`", "`. -/
def rewriteSrcset (cfg : AssetConfig) (m : AssetMappings) (value : String) : String :=
  String.intercalate ", " ((jsSplitChar ',' value).map (rewriteSrcsetEntry cfg m))

/-- Test of `/\.(html|css|js|json)$/i` on an anchor `href`. -/
def anchorHrefExtOk (v : String) : Bool :=
  jsEndsWith (jsToLower v) ".html" || jsEndsWith (jsToLower v) ".css" ||
    jsEndsWith (jsToLower v) ".js" || jsEndsWith (jsToLower v) ".json"

/-- Embedding of the per-element attribute pass
(post-build-assets-processor-plugin.ts, lines 642-678): elements matched
by `[src],[href],[content]` have their `src`, `href`, `content` and
`srcset` attributes rewritten, except that an anchor `href` not ending in
`.html/.css/.js/.json` is skipped; an empty attribute value is falsy and
skipped.  The boolean is the element's contribution to `fileChanged`. -/
def attrStep (cfg : AssetConfig) (m : AssetMappings) (el : Element) :
    Element × Bool :=
  if el.src.isSome || el.href.isSome || el.content.isSome then
    let nodeName := jsToLower el.tag
    let srcR :=
      match el.src with
      | some v =>
        if v = "" then (el.src, false)
        else
          let u := updateUrl v cfg m
          (some u, u != v)
      | none => (none, false)
    let hrefR :=
      match el.href with
      | some v =>
        if v = "" then (el.href, false)
        else if nodeName == "a" && !(anchorHrefExtOk v) then (el.href, false)
        else
          let u := updateUrl v cfg m
          (some u, u != v)
      | none => (none, false)
    let contentR :=
      match el.content with
      | some v =>
        if v = "" then (el.content, false)
        else
          let u := updateUrl v cfg m
          (some u, u != v)
      | none => (none, false)
    let srcsetR :=
      match el.srcset with
      | some v =>
        if v = "" then (el.srcset, false)
        else
          let ns := rewriteSrcset cfg m v
          (some ns, ns != v)
      | none => (none, false)
    let el2 : Element := { el with src := srcR.1, href := hrefR.1, content := contentR.1, srcset := srcsetR.1 }
    (el2, srcR.2 || hrefR.2 || contentR.2 || srcsetR.2)
  else (el, false)

/-- Embedding of the manifest-link pass
(post-build-assets-processor-plugin.ts, lines 626-639): a
`link[rel="manifest"]` whose truthy `href` ends in `manifest.json` is
redirected to the first `manifest-*.json` found in the output tree
(`manifestFiles`, the result of that glob), marking the file changed. -/
def manifestLinkStep (baseDir : String) (manifestFiles : List String)
    (el : Element) : Element × Bool :=
  if el.tag == "link" && el.rel == some "manifest" then
    match el.href with
    | some href =>
      if href != "" && jsEndsWith href "manifest.json" then
        match manifestFiles with
        | [] => (el, false)
        | f :: _ =>
          let relPath := backslashToSlash (relativeTo baseDir f)
          ({ el with href := some ("/" ++ relPath) }, true)
      else (el, false)
    | none => (el, false)
  else (el, false)

/-- The manifest-link pass over all elements. -/
def processLinkPass (baseDir : String) (manifestFiles : List String) :
    List Element → List Element × Bool
  | [] => ([], false)
  | e :: rest =>
    let r1 := manifestLinkStep baseDir manifestFiles e
    let r2 := processLinkPass baseDir manifestFiles rest
    (r1.1 :: r2.1, r1.2 || r2.2)

/-- The attribute pass over all elements. -/
def processElements (cfg : AssetConfig) (m : AssetMappings) :
    List Element → List Element × Bool
  | [] => ([], false)
  | e :: rest =>
    let r1 := attrStep cfg m e
    let r2 := processElements cfg m rest
    (r1.1 :: r2.1, r1.2 || r2.2)

/-- Embedding of the per-document body of `updateHtmlFiles`
(post-build-assets-processor-plugin.ts, lines 614-783): the manifest-link
pass, then the attribute pass, then the JSON-LD pass; the boolean is
`fileChanged`, and the file is written back if and only if it is true. -/
def processHtmlDoc (cfg : AssetConfig) (m : AssetMappings) (baseDir : String)
    (manifestFiles : List String) (doc : HtmlDoc) : HtmlDoc × Bool :=
  let link := processLinkPass baseDir manifestFiles doc.elements
  let attrs := processElements cfg m link.1
  let scripts := processScriptsPass cfg m doc.jsonLdScripts
  (⟨attrs.1, scripts.1⟩, link.2 || attrs.2 || scripts.2)

/-- Extension allow-list of the scanner
(`/\.(jpg|jpeg|png|svg|gif|webp|avif|mp4|webm|ico)$/i`). -/
def mediaExtOk (p : String) : Bool :=
  [".jpg", ".jpeg", ".png", ".svg", ".gif", ".webp", ".avif", ".mp4", ".webm",
    ".ico"].any (fun e => jsEndsWith (jsToLower p) e)

/-- The path key the scanner derives from an input string: the `baseUrl`
prefix stripped when present, then query/fragment stripped, then leading
slashes stripped. -/
def scannerKey (str baseUrl : String) : String :=
  stripLeadingSlashes (takeUntilQueryHash
    (if jsStartsWith str baseUrl then jsDrop str (jsLength baseUrl) else str))

/-- Embedding of `findAssetsInString`
(post-build-assets-processor-plugin.ts, lines 92-123).  The filesystem
under `srcDir` is abstracted as `fsFiles`, the `srcDir`-relative paths of
the existing files in enumeration order: `fs.existsSync(path.join(srcDir,
p))` becomes membership of `p`, and the fallback
`glob.sync(srcDir + "/**/" + name)` becomes the sublist of files whose
basename equals `name`, of which the first is taken. -/
def findAssetsInString (str baseUrl srcDir : String) (fsFiles : List String) :
    List AssetEntry :=
  let p0 := if jsStartsWith str baseUrl then jsDrop str (jsLength baseUrl) else str
  let p := stripLeadingSlashes (takeUntilQueryHash p0)
  if !(mediaExtOk p) then []
  else
    let direct := joinPath srcDir p
    if fsFiles.contains p then [⟨p, direct⟩]
    else
      let name := baseNameOf p
      match (fsFiles.filter (fun f => baseNameOf f == name)).head? with
      | some f => [⟨p, joinPath srcDir f⟩]
      | none => []

end ViteMPA

namespace ViteMPA

/-- Helper: a list is a `isPrefixOf` of itself followed by anything. -/
theorem isPrefixOf_append_self (l t : List Char) : (l.isPrefixOf (l ++ t)) = true := by
  induction l with
  | nil => simp [List.isPrefixOf]
  | cons c cs ih => simp [List.isPrefixOf, ih]

/-- Helper: strings are equal when their character data are equal. -/
theorem string_eq_of_data (s t : String) (h : s.data = t.data) : s = t :=
  String.ext h

/-- Helper: character data of the one-character string "/". -/
theorem slash_data : ("/" : String).data = ['/'] := rfl

/-- Helper: dropping leading slashes from `"/" ++ k` when `k` does not
start with a slash gives back `k`. -/
theorem stripLeadingSlashes_slash_append (k : String)
    (hk : jsStartsWith k "/" = false) :
    stripLeadingSlashes ("/" ++ k) = k := by
  apply string_eq_of_data
  unfold stripLeadingSlashes
  show (("/" ++ k).data.dropWhile (fun c => c == '/')) = k.data
  rw [String.data_append, slash_data]
  simp only [List.cons_append, List.nil_append, List.dropWhile_cons]
  norm_num
  cases hkd : k.data with
  | nil => simp
  | cons c cs =>
    unfold jsStartsWith at hk
    rw [slash_data, hkd] at hk
    simp only [List.isPrefixOf, Bool.and_true, Bool.and_eq_true, beq_iff_eq] at hk
    have hcne : ¬ (c = '/') := by
      intro h
      simp [h, List.isPrefixOf] at hk
    simp [List.dropWhile_cons, hcne]

/-- Helper: when the site base URL is nonempty and does not itself start
with a slash, the site-relative form `"/" ++ k` is not recognized as
absolute. -/
theorem startsWith_slash_append_base (k : String) (cfg : AssetConfig)
    (hb : jsStartsWith cfg.siteBaseUrl "/" = false)
    (hbne : cfg.siteBaseUrl ≠ "") :
    jsStartsWith ("/" ++ k) cfg.siteBaseUrl = false := by
  unfold jsStartsWith
  rw [String.data_append, slash_data]
  cases hsb : cfg.siteBaseUrl.data with
  | nil =>
    exact absurd (string_eq_of_data _ _ (by simp [hsb])) hbne
  | cons c cs =>
    unfold jsStartsWith at hb
    rw [slash_data, hsb] at hb
    have hcne : ¬ (c = '/') := by
      intro h
      simp [h, List.isPrefixOf] at hb
    simp only [List.cons_append, List.isPrefixOf]
    have hbf : (c == '/') = false := by
      simpa using hcne
    simp [hbf]

/-- Helper: every string starts with the empty string. -/
theorem jsStartsWith_empty (s : String) : jsStartsWith s "" = true := by
  simp [jsStartsWith, List.isPrefixOf]

/-- Helper: a string starts with itself extended by anything. -/
theorem jsStartsWith_append (base rest : String) :
    jsStartsWith (base ++ rest) base = true := by
  unfold jsStartsWith
  rw [String.data_append]
  exact isPrefixOf_append_self _ _

/-- Helper: slicing off the length of a prefix recovers the remainder. -/
theorem jsDrop_append (base rest : String) :
    jsDrop (base ++ rest) (jsLength base) = rest := by
  apply string_eq_of_data
  unfold jsDrop jsLength
  show ((base ++ rest).data).drop base.data.length = rest.data
  rw [String.data_append, List.drop_left]

/-- Helper: a truthy lookup of a key bound to a nonempty value. -/
theorem truthyLookup_some (m : AssetMappings) (k v : String)
    (hv : lookupKV m k = some v) (hne : v ≠ "") :
    truthyLookup m k = some v := by
  unfold truthyLookup
  rw [hv]
  simp [hne]

/-- C1 counterexample.  The claim fails as stated on two concrete inputs:
a key bound to the empty hashed path is treated as unmapped by the
truthiness test `if (assetMappings[assetPath])`, and with
`siteBaseUrl = "/"` the site-relative form is recognized as absolute and
rebuilt as `"//" ++ v`. -/
theorem claim_C1_counterexample :
    (jsStartsWith "k" "/" = false ∧
      jsStartsWith "k" testConfig.siteBaseUrl = false ∧
      lookupKV [("k", "")] "k" = some "" ∧
      updateUrl ("/" ++ "k") testConfig [("k", "")] ≠ "/" ++ "") ∧
    (jsStartsWith "img.png" "/" = false ∧
      jsStartsWith "img.png" (AssetConfig.mk "src" "dist" "assets" "/").siteBaseUrl = false ∧
      lookupKV [("img.png", "assets/img-ab12cd34.png")] "img.png" =
        some "assets/img-ab12cd34.png" ∧
      updateUrl ("/" ++ "img.png") (AssetConfig.mk "src" "dist" "assets" "/")
          [("img.png", "assets/img-ab12cd34.png")] ≠
        "/" ++ "assets/img-ab12cd34.png") := by
  decide

/-- C1 (amended): for every key `k` with a nonempty value `v`, where `k`
has no leading slash and does not start with `siteBaseUrl`, and where
`siteBaseUrl` does not start with a slash, `updateUrl` maps the
site-relative form `"/" ++ k` to `"/" ++ v` and the absolute form
`siteBaseUrl ++ "/" ++ k` to `siteBaseUrl ++ "/" ++ v`; and every URL
whose derived lookup key is absent from the mapping is returned
unchanged. -/
theorem claim_C1_amended (cfg : AssetConfig) (m : AssetMappings) (k v : String)
    (hb : jsStartsWith cfg.siteBaseUrl "/" = false)
    (hk : jsStartsWith k "/" = false)
    (hkb : jsStartsWith k cfg.siteBaseUrl = false)
    (hv : lookupKV m k = some v) (hne : v ≠ "") :
    updateUrl ("/" ++ k) cfg m = "/" ++ v ∧
    updateUrl (cfg.siteBaseUrl ++ "/" ++ k) cfg m = cfg.siteBaseUrl ++ "/" ++ v ∧
    ∀ url, lookupKV m (deriveKey url cfg) = none → updateUrl url cfg m = url := by
  have hbne : cfg.siteBaseUrl ≠ "" := by
    intro h
    rw [h, jsStartsWith_empty] at hkb
    exact Bool.noConfusion hkb
  refine ⟨?_, ?_, ?_⟩
  · unfold updateUrl
    have habs : jsStartsWith ("/" ++ k) cfg.siteBaseUrl = false :=
      startsWith_slash_append_base k cfg hb hbne
    rw [habs]
    simp only [Bool.false_eq_true, if_false]
    rw [stripLeadingSlashes_slash_append k hk, truthyLookup_some m k v hv hne]
  · unfold updateUrl
    have hurl : cfg.siteBaseUrl ++ "/" ++ k = cfg.siteBaseUrl ++ ("/" ++ k) := by
      rw [String.append_assoc]
    rw [hurl, jsStartsWith_append, jsDrop_append]
    simp only [if_true]
    rw [stripLeadingSlashes_slash_append k hk, truthyLookup_some m k v hv hne]
  · intro url hurl
    unfold updateUrl
    have ht : truthyLookup m (deriveKey url cfg) = none := by
      unfold truthyLookup
      rw [hurl]
    unfold deriveKey at ht
    cases habs : jsStartsWith url cfg.siteBaseUrl with
    | false =>
      rw [habs] at ht
      simp only [Bool.false_eq_true, if_false] at ht ⊢
      rw [ht]
    | true =>
      rw [habs] at ht
      simp only [if_true] at ht ⊢
      rw [ht]

/-- C1 witness: the amended round-trip at a concrete mapping entry. -/
theorem claim_C1_witness :
    (jsStartsWith testConfig.siteBaseUrl "/" = false ∧
      jsStartsWith "images/logo.png" "/" = false ∧
      jsStartsWith "images/logo.png" testConfig.siteBaseUrl = false ∧
      lookupKV [("images/logo.png", "assets/images/logo-ab12cd34.png")]
          "images/logo.png" = some "assets/images/logo-ab12cd34.png") ∧
    updateUrl ("/" ++ "images/logo.png") testConfig
        [("images/logo.png", "assets/images/logo-ab12cd34.png")] =
      "/" ++ "assets/images/logo-ab12cd34.png" ∧
    updateUrl (testConfig.siteBaseUrl ++ "/" ++ "images/logo.png") testConfig
        [("images/logo.png", "assets/images/logo-ab12cd34.png")] =
      testConfig.siteBaseUrl ++ "/" ++ "assets/images/logo-ab12cd34.png" ∧
    updateUrl "/missing.png" testConfig
        [("images/logo.png", "assets/images/logo-ab12cd34.png")] = "/missing.png" := by
  refine ⟨by decide, ?_, ?_, ?_⟩
  · exact (claim_C1_amended testConfig _ "images/logo.png" "assets/images/logo-ab12cd34.png"
      (by decide) (by decide) (by decide) (by decide) (by decide)).1
  · exact (claim_C1_amended testConfig _ "images/logo.png" "assets/images/logo-ab12cd34.png"
      (by decide) (by decide) (by decide) (by decide) (by decide)).2.1
  · exact (claim_C1_amended testConfig _ "images/logo.png" "assets/images/logo-ab12cd34.png"
      (by decide) (by decide) (by decide) (by decide) (by decide)).2.2
      "/missing.png" (by decide)

/-- Helper: reading back the key just written. -/
theorem lookupKV_insertKV_self (m : List (String × String)) (k v : String) :
    lookupKV (insertKV m k v) k = some v := by
  induction m with
  | nil => simp [insertKV, lookupKV]
  | cons e rest ih =>
    by_cases h : e.1 = k
    · simp [insertKV, lookupKV, h]
    · simp [insertKV, lookupKV, h, ih]

/-- Helper: writing one key leaves every other key's value unchanged. -/
theorem lookupKV_insertKV_ne (m : List (String × String)) (k v k' : String)
    (h : k' ≠ k) :
    lookupKV (insertKV m k v) k' = lookupKV m k' := by
  have hkk : ¬ (k = k') := fun he => h he.symm
  induction m with
  | nil => simp [insertKV, lookupKV, hkk]
  | cons e rest ih =>
    by_cases he : e.1 = k
    · simp [insertKV, lookupKV, he, hkk]
    · by_cases he' : e.1 = k'
      · simp [insertKV, lookupKV, he, he', h]
      · simp [insertKV, lookupKV, he, he', ih]

/-- Helper: processing one missing asset never disturbs other keys. -/
theorem pmaStep_preserve (baseDir assetsDir : String)
    (sourceAssets : List (String × String)) (readFile : String → Option (List Nat))
    (acc : AssetMappings) (j k : String) (h : j ≠ k) :
    lookupKV (pmaStep baseDir assetsDir sourceAssets readFile acc j) k =
      lookupKV acc k := by
  cases h1 : lookupKV sourceAssets j with
  | none => simp [pmaStep, h1]
  | some sourcePath =>
    cases h2 : readFile sourcePath with
    | none => simp [pmaStep, h1, h2]
    | some fileContent =>
      simp only [pmaStep, h1, h2]
      exact lookupKV_insertKV_ne _ _ _ _ (fun he => h he.symm)

/-- Helper: a fold over missing assets not containing `k` preserves `k`. -/
theorem foldl_pmaStep_preserve (baseDir assetsDir : String)
    (sourceAssets : List (String × String)) (readFile : String → Option (List Nat))
    (l : List String) (acc : AssetMappings) (k : String)
    (h : ∀ j ∈ l, j ≠ k) :
    lookupKV (l.foldl (pmaStep baseDir assetsDir sourceAssets readFile) acc) k =
      lookupKV acc k := by
  induction l generalizing acc with
  | nil => rfl
  | cons j rest ih =>
    rw [List.foldl_cons, ih _ (fun x hx => h x (List.mem_cons_of_mem _ hx)),
      pmaStep_preserve _ _ _ _ _ _ _ (h j (List.mem_cons_self _ _))]

/-- Helper: lookup success produces a member of the association list. -/
theorem lookupKV_mem (m : List (String × String)) (k v : String)
    (h : lookupKV m k = some v) : (k, v) ∈ m := by
  induction m with
  | nil => exact absurd h (by simp [lookupKV])
  | cons e rest ih =>
    by_cases he : e.1 = k
    · rw [lookupKV, if_pos he] at h
      have : e = (k, v) := by
        cases e
        cases h
        simp_all
      simp [this]
    · rw [lookupKV, if_neg he] at h
      exact List.mem_cons_of_mem _ (ih h)

/-- Helper: a fold that does contain the missing asset `k` (exactly once)
records its freshly hashed copy. -/
theorem foldl_pmaStep_hit (baseDir assetsDir : String)
    (sourceAssets : List (String × String)) (readFile : String → Option (List Nat))
    (l : List String) (acc : AssetMappings) (k fp : String) (content : List Nat)
    (hnd : l.Nodup) (hk : k ∈ l)
    (hsf : lookupKV sourceAssets k = some fp)
    (hrf : readFile fp = some content) :
    lookupKV (l.foldl (pmaStep baseDir assetsDir sourceAssets readFile) acc) k =
      some (missingAssetTarget baseDir assetsDir k content) := by
  obtain ⟨s, t, rfl⟩ := List.append_of_mem hk
  have hkt : k ∉ t := by
    have h1 := (List.nodup_append.mp hnd).2.1
    exact (List.nodup_cons.mp h1).1
  rw [List.foldl_append, List.foldl_cons]
  rw [foldl_pmaStep_preserve _ _ _ _ t _ k (fun j hj he => absurd (he ▸ hj) hkt)]
  simp only [pmaStep, hsf, hrf]
  exact lookupKV_insertKV_self _ _ _

set_option maxRecDepth 10000 in
/-- C4 counterexample.  The frame part of the claim fails as stated: an
input-mapping entry whose hashed path is the empty string is falsy under
the `!assetMappings[sourcePath]` test, so the reconciler treats the asset
as missing and overwrites the entry instead of leaving it unchanged. -/
theorem claim_C4_counterexample :
    lookupKV [("a.png", "")] "a.png" = some "" ∧
    lookupKV
        (processMissingAssets "dist/client" "dist/client/assets" [("a.png", "")]
          [("a.png", "src/a.png")] (fun _ => some [97])) "a.png" =
      some "assets/a-0cc175b9.png" ∧
    lookupKV
        (processMissingAssets "dist/client" "dist/client/assets" [("a.png", "")]
          [("a.png", "src/a.png")] (fun _ => some [97])) "a.png" ≠
      some "" := by
  refine ⟨by decide, by decide, ?_⟩
  intro h
  exact absurd (by decide : (lookupKV
    (processMissingAssets "dist/client" "dist/client/assets" [("a.png", "")]
      [("a.png", "src/a.png")] (fun _ => some [97])) "a.png" =
    some "assets/a-0cc175b9.png")) (by rw [h]; decide)

/-- C4 (amended): every scanned source reference whose original path is
absent from the input mapping and whose read/copy succeeds ends up mapped
to the output-root-relative path of `basename-<hash>.ext` (first eight MD5
hex characters), regardless of failures of other assets; and every input
entry with a nonempty hashed path is returned unchanged (an empty-valued
entry is treated as missing by the truthiness test and overwritten). -/
theorem claim_C4_amended (baseDir assetsDir : String) (m : AssetMappings)
    (sourceAssets : List (String × String)) (readFile : String → Option (List Nat))
    (hnd : (sourceAssets.map Prod.fst).Nodup) :
    (∀ k fp content, lookupKV sourceAssets k = some fp → lookupKV m k = none →
      readFile fp = some content →
      lookupKV (processMissingAssets baseDir assetsDir m sourceAssets readFile) k =
        some (missingAssetTarget baseDir assetsDir k content)) ∧
    (∀ k v, lookupKV m k = some v → v ≠ "" →
      lookupKV (processMissingAssets baseDir assetsDir m sourceAssets readFile) k =
        some v) := by
  constructor
  · intro k fp content hsf hmk hrf
    have hkmem : (k, fp) ∈ sourceAssets.filter (fun e => (truthyLookup m e.1).isNone) := by
      refine List.mem_filter.mpr ⟨lookupKV_mem _ _ _ hsf, ?_⟩
      simp [truthyLookup, hmk]
    have hndm :
        ((sourceAssets.filter (fun e => (truthyLookup m e.1).isNone)).map Prod.fst).Nodup :=
      List.Nodup.sublist
        (List.Sublist.map Prod.fst (List.filter_sublist sourceAssets)) hnd
    show lookupKV
      (((sourceAssets.filter (fun e => (truthyLookup m e.1).isNone)).map Prod.fst).foldl
        (pmaStep baseDir assetsDir sourceAssets readFile) m) k =
      some (missingAssetTarget baseDir assetsDir k content)
    exact foldl_pmaStep_hit baseDir assetsDir sourceAssets readFile _ m k fp content
      hndm (List.mem_map.mpr ⟨(k, fp), hkmem, rfl⟩) hsf hrf
  · intro k v hkv hne
    have ht : truthyLookup m k = some v := truthyLookup_some m k v hkv hne
    show lookupKV
      (((sourceAssets.filter (fun e => (truthyLookup m e.1).isNone)).map Prod.fst).foldl
        (pmaStep baseDir assetsDir sourceAssets readFile) m) k = some v
    rw [foldl_pmaStep_preserve, hkv]
    intro j hj he
    obtain ⟨e, he2, hej⟩ := List.mem_map.mp hj
    have hp := (List.mem_filter.mp he2).2
    rw [hej, he, ht] at hp
    exact Bool.noConfusion hp

set_option maxRecDepth 10000 in
/-- C4 witness: the amended reconciliation at a concrete missing asset
alongside a preserved entry. -/
theorem claim_C4_witness :
    lookupKV
        (processMissingAssets "dist/client" "dist/client/assets"
          [("old.png", "assets/old-11111111.png")]
          [("images/a.png", "src/images/a.png")] (fun _ => some [97]))
        "images/a.png" = some "assets/images/a-0cc175b9.png" ∧
    lookupKV
        (processMissingAssets "dist/client" "dist/client/assets"
          [("old.png", "assets/old-11111111.png")]
          [("images/a.png", "src/images/a.png")] (fun _ => some [97]))
        "old.png" = some "assets/old-11111111.png" := by
  have h := claim_C4_amended "dist/client" "dist/client/assets"
    [("old.png", "assets/old-11111111.png")]
    [("images/a.png", "src/images/a.png")] (fun _ => some [97]) (by decide)
  constructor
  · exact (h.1 "images/a.png" "src/images/a.png" [97] (by decide) (by decide) rfl).trans
      (by decide)
  · exact h.2 "old.png" "assets/old-11111111.png" (by decide) (by decide)

/-- C5 counterexample.  For a malformed manifest the claim fails: the
`try` of `updateManifestFile` wraps `JSON.parse` itself, so a parse
failure is swallowed and the file is left alone — there is no raw-string
fallback for manifests, even when `updateUrl` on the raw content would
change it. -/
theorem claim_C5_counterexample :
    (parseJson "/icons/icon.png").isNone = true ∧
    updateUrl "/icons/icon.png" testConfig
        [("icons/icon.png", "assets/icons/icon-ab12cd34.png")] =
      "/assets/icons/icon-ab12cd34.png" ∧
    updateManifestContent testConfig
        [("icons/icon.png", "assets/icons/icon-ab12cd34.png")]
        "/icons/icon.png" = none := by
  decide

/-- C5 (amended): for every JSON-LD script body that fails to parse, the
rewriter falls back to rewriting the raw body through `updateUrl`, and a
script is processed independently of the rest of the batch; a manifest
document that fails to parse, however, is logged and skipped without any
fallback rewrite. -/
theorem claim_C5_amended (cfg : AssetConfig) (m : AssetMappings) :
    (∀ b, parseJson b = none →
      (processJsonLdScript cfg m b).1 = updateUrl b cfg m ∧
      (processJsonLdScript cfg m b).2 = (updateUrl b cfg m != b)) ∧
    (∀ b rest, processScriptsPass cfg m (b :: rest) =
      ((processJsonLdScript cfg m b).1 :: (processScriptsPass cfg m rest).1,
        (processJsonLdScript cfg m b).2 || (processScriptsPass cfg m rest).2)) ∧
    (∀ content, parseJson content = none →
      updateManifestContent cfg m content = none) := by
  refine ⟨?_, ?_, ?_⟩
  · intro b hb
    simp only [processJsonLdScript, hb]
    cases h : (updateUrl b cfg m != b) with
    | true => simp [h]
    | false =>
      have he : updateUrl b cfg m = b := by
        simpa using h
      simp [h, he]
  · intro b rest
    rfl
  · intro content hc
    simp only [updateManifestContent, hc]

/-- C5 witness: the amended behaviour at a concrete malformed body. -/
theorem claim_C5_witness :
    (parseJson "not json").isNone = true ∧
    (processJsonLdScript testConfig
        [("icons/icon.png", "assets/icons/icon-ab12cd34.png")] "not json").1 =
      updateUrl "not json" testConfig
        [("icons/icon.png", "assets/icons/icon-ab12cd34.png")] ∧
    updateManifestContent testConfig
        [("icons/icon.png", "assets/icons/icon-ab12cd34.png")] "not json" = none :=
  ⟨by decide,
    ((claim_C5_amended testConfig
        [("icons/icon.png", "assets/icons/icon-ab12cd34.png")]).1
      "not json" (Option.isNone_iff_eq_none.mp (by decide))).1,
    (claim_C5_amended testConfig
        [("icons/icon.png", "assets/icons/icon-ab12cd34.png")]).2.2
      "not json" (Option.isNone_iff_eq_none.mp (by decide))⟩

/-- Helper: a prefix test never looks past a list at least as long as the
candidate prefix. -/
theorem isPrefixOf_append_eq (p l t : List Char) (hlen : p.length ≤ l.length) :
    p.isPrefixOf (l ++ t) = p.isPrefixOf l := by
  induction p generalizing l with
  | nil => simp [List.isPrefixOf]
  | cons c cs ih =>
    cases l with
    | nil => simp at hlen
    | cons d ds =>
      simp only [List.cons_append, List.isPrefixOf]
      show (c == d && cs.isPrefixOf (ds ++ t)) = (c == d && cs.isPrefixOf ds)
      rw [ih ds (by simpa using hlen)]

/-- Helper: `startsWith` against a prefix no longer than the left summand
ignores the right summand. -/
theorem jsStartsWith_append_lit (a rest pre : String)
    (hlen : pre.data.length ≤ a.data.length) :
    jsStartsWith (a ++ rest) pre = jsStartsWith a pre := by
  unfold jsStartsWith
  rw [String.data_append]
  exact isPrefixOf_append_eq _ _ _ hlen

/-- Helper: appending to a nonempty string stays nonempty. -/
theorem append_ne_empty_left (a rest : String) (ha : a ≠ "") : a ++ rest ≠ "" := by
  intro h
  apply ha
  have hd := congrArg String.data h
  rw [String.data_append] at hd
  have hempty : ("" : String).data = [] := rfl
  rw [hempty] at hd
  exact string_eq_of_data _ _ ((List.append_eq_nil.mp hd).1.trans hempty.symm)

/-- Helper: the `image/` branch of `matchMimeCat`. -/
theorem matchMimeCat_image_gen (x : String) :
    matchMimeCat ("image" ++ "/" ++ x) = some ("image", x) := by
  rw [show ("image" ++ "/" : String) = "image/" from by decide]
  unfold matchMimeCat
  rw [jsStartsWith_append_lit "image/" x "image/" (by decide),
    show jsStartsWith "image/" "image/" = true from by decide, if_pos rfl]
  have hd := jsDrop_append "image/" x
  rw [show jsLength "image/" = 6 from by decide] at hd
  rw [hd]

/-- Helper: the `audio/` branch of `matchMimeCat`. -/
theorem matchMimeCat_audio_gen (x : String) :
    matchMimeCat ("audio" ++ "/" ++ x) = some ("audio", x) := by
  rw [show ("audio" ++ "/" : String) = "audio/" from by decide]
  unfold matchMimeCat
  rw [jsStartsWith_append_lit "audio/" x "image/" (by decide),
    show jsStartsWith "audio/" "image/" = false from by decide,
    if_neg (by decide : ¬ (false = true)),
    jsStartsWith_append_lit "audio/" x "audio/" (by decide),
    show jsStartsWith "audio/" "audio/" = true from by decide, if_pos rfl]
  have hd := jsDrop_append "audio/" x
  rw [show jsLength "audio/" = 6 from by decide] at hd
  rw [hd]

/-- Helper: the `video/` branch of `matchMimeCat`. -/
theorem matchMimeCat_video_gen (x : String) :
    matchMimeCat ("video" ++ "/" ++ x) = some ("video", x) := by
  rw [show ("video" ++ "/" : String) = "video/" from by decide]
  unfold matchMimeCat
  rw [jsStartsWith_append_lit "video/" x "image/" (by decide),
    show jsStartsWith "video/" "image/" = false from by decide,
    if_neg (by decide : ¬ (false = true)),
    jsStartsWith_append_lit "video/" x "audio/" (by decide),
    show jsStartsWith "video/" "audio/" = false from by decide,
    if_neg (by decide : ¬ (false = true)),
    jsStartsWith_append_lit "video/" x "video/" (by decide),
    show jsStartsWith "video/" "video/" = true from by decide, if_pos rfl]
  have hd := jsDrop_append "video/" x
  rw [show jsLength "video/" = 6 from by decide] at hd
  rw [hd]

/-- Helper: the `application/` branch of `matchMimeCat`. -/
theorem matchMimeCat_application_gen (x : String) :
    matchMimeCat ("application" ++ "/" ++ x) = some ("application", x) := by
  rw [show ("application" ++ "/" : String) = "application/" from by decide]
  unfold matchMimeCat
  rw [jsStartsWith_append_lit "application/" x "image/" (by decide),
    show jsStartsWith "application/" "image/" = false from by decide,
    if_neg (by decide : ¬ (false = true)),
    jsStartsWith_append_lit "application/" x "audio/" (by decide),
    show jsStartsWith "application/" "audio/" = false from by decide,
    if_neg (by decide : ¬ (false = true)),
    jsStartsWith_append_lit "application/" x "video/" (by decide),
    show jsStartsWith "application/" "video/" = false from by decide,
    if_neg (by decide : ¬ (false = true)),
    jsStartsWith_append_lit "application/" x "application/" (by decide),
    show jsStartsWith "application/" "application/" = true from by decide, if_pos rfl]
  have hd := jsDrop_append "application/" x
  rw [show jsLength "application/" = 12 from by decide] at hd
  rw [hd]

/-- Helper: a duplicated category prefix collapses under `fixMimeType`. -/
theorem fixMimeType_dup_of (p rest : String)
    (hmc : ∀ x, matchMimeCat (p ++ "/" ++ x) = some (p, x))
    (hne : p ++ "/" ++ (p ++ "/" ++ rest) ≠ "") :
    fixMimeType (p ++ "/" ++ (p ++ "/" ++ rest)) = p ++ "/" ++ rest := by
  simp only [fixMimeType, hne, hmc, if_false]

/-- C7: manifest icon repair.  The concrete scenario: updating the
manifest whose single icon is
`src = "/icons/icon.png"`, `type = "image/image/png"` against the mapping
`icons/icon.png -> assets/icons/icon-ab12cd34.png` writes the file and
yields `src = "/assets/icons/icon-ab12cd34.png"`, `type = "image/png"`.
Universally, `fixMimeType` collapses any duplicated category prefix, and
the icon pass always sets the `type` field to `fixMimeType` of the old
value, whether or not the `src` URL changed. -/
theorem claim_C7 :
    ((jsonGetField
          (updateManifestJson testConfig
            [("icons/icon.png", "assets/icons/icon-ab12cd34.png")]
            (Json.obj [("icons", Json.arr [Json.obj
              [("src", Json.str "/icons/icon.png"),
               ("type", Json.str "image/image/png")]])])).1 "icons").bind
        (fun ic => (jsonGetIdx ic 0).bind (fun icon => jsonGetStr icon "src")) =
      some "/assets/icons/icon-ab12cd34.png" ∧
     (jsonGetField
          (updateManifestJson testConfig
            [("icons/icon.png", "assets/icons/icon-ab12cd34.png")]
            (Json.obj [("icons", Json.arr [Json.obj
              [("src", Json.str "/icons/icon.png"),
               ("type", Json.str "image/image/png")]])])).1 "icons").bind
        (fun ic => (jsonGetIdx ic 0).bind (fun icon => jsonGetStr icon "type")) =
      some "image/png" ∧
     (updateManifestJson testConfig
        [("icons/icon.png", "assets/icons/icon-ab12cd34.png")]
        (Json.obj [("icons", Json.arr [Json.obj
          [("src", Json.str "/icons/icon.png"),
           ("type", Json.str "image/image/png")]])])).2 = true) ∧
    (∀ p rest : String,
      (p = "image" ∨ p = "audio" ∨ p = "video" ∨ p = "application") →
      fixMimeType (p ++ "/" ++ p ++ "/" ++ rest) = p ++ "/" ++ rest) ∧
    (∀ (cfg : AssetConfig) (m : AssetMappings) (s t : String),
      jsonGetStr
          (processIcon cfg m
            (Json.obj [("src", Json.str s), ("type", Json.str t)])).1 "type" =
        some (fixMimeType t)) := by
  refine ⟨by decide, ?_, ?_⟩
  · intro p rest hp
    rcases hp with rfl | rfl | rfl | rfl
    · have h := fixMimeType_dup_of "image" rest matchMimeCat_image_gen
        (append_ne_empty_left _ _ (by decide))
      simpa only [String.append_assoc] using h
    · have h := fixMimeType_dup_of "audio" rest matchMimeCat_audio_gen
        (append_ne_empty_left _ _ (by decide))
      simpa only [String.append_assoc] using h
    · have h := fixMimeType_dup_of "video" rest matchMimeCat_video_gen
        (append_ne_empty_left _ _ (by decide))
      simpa only [String.append_assoc] using h
    · have h := fixMimeType_dup_of "application" rest matchMimeCat_application_gen
        (append_ne_empty_left _ _ (by decide))
      simpa only [String.append_assoc] using h
  · intro cfg m s t
    rcases eq_or_ne s "" with rfl | hs
    · rcases eq_or_ne t "" with rfl | ht
      · rfl
      · simp only [processIcon, lookupJson, setJson, jsonGetStr, ht]
        cases hft : (fixMimeType t != t) with
        | true => simp [hft, ht, lookupJson, setJson]
        | false =>
          have he : fixMimeType t = t := by simpa using hft
          simp [hft, he, ht, lookupJson, setJson]
    · rcases eq_or_ne t "" with rfl | ht
      · simp [processIcon, lookupJson, setJson, jsonGetStr, hs, fixMimeType]
      · simp only [processIcon, lookupJson, setJson, jsonGetStr, hs, ht]
        cases hft : (fixMimeType t != t) with
        | true => simp [hft, hs, ht, lookupJson, setJson]
        | false =>
          have he : fixMimeType t = t := by simpa using hft
          simp [hft, he, hs, ht, lookupJson, setJson]

/-- C7 witness: the universal conjuncts at concrete inputs. -/
theorem claim_C7_witness :
    ("image" = "image" ∨ "image" = "audio" ∨ "image" = "video" ∨
      "image" = "application") ∧
    fixMimeType ("image" ++ "/" ++ "image" ++ "/" ++ "png") =
      "image" ++ "/" ++ "png" ∧
    jsonGetStr
        (processIcon testConfig []
          (Json.obj [("src", Json.str "/x.png"),
            ("type", Json.str "image/image/png")])).1 "type" =
      some (fixMimeType "image/image/png") :=
  ⟨Or.inl rfl, claim_C7.2.1 "image" "png" (Or.inl rfl),
    claim_C7.2.2 testConfig [] "/x.png" "image/image/png"⟩

set_option maxRecDepth 10000 in
/-- C2 code-bug exhibit: a document whose only JSON-LD script is the
compact `{"name":"x"}` (no asset references at all, empty mapping) is
reported changed on the first pass — and the result of the first pass is
reported changed again on the second pass, because the code compares the
compact serialization `JSON.stringify(json)` against the 2-space
serialization `JSON.stringify(json, null, 2)`, which differ for every
nonempty object no matter whether any value changed; the changed flag is
exactly the write condition, so the file is rewritten on every run. -/
theorem claim_C2_code_bug :
    (processHtmlDoc testConfig [] "dist/client" []
      ⟨[], ["\x7b\"name\":\"x\"\x7d"]⟩).2 = true ∧
    (processHtmlDoc testConfig [] "dist/client" []
      (processHtmlDoc testConfig [] "dist/client" []
        ⟨[], ["\x7b\"name\":\"x\"\x7d"]⟩).1).2 = true := by
  decide

set_option maxRecDepth 10000 in
/-- C6 code-bug exhibit: a document whose only JSON-LD script is already
the pretty-printed form produced by a previous run, with an empty
mapping, comes back byte-for-byte identical yet is reported changed (and
hence written), because the compact-versus-pretty comparison differs even
though no attribute, manifest link, or script body changed and no
reference resolves in the mapping. -/
theorem claim_C6_code_bug :
    (processHtmlDoc testConfig [] "dist/client" []
      ⟨[], ["\x7b\n  \"name\": \"x\"\n\x7d"]⟩).1 =
      ⟨[], ["\x7b\n  \"name\": \"x\"\n\x7d"]⟩ ∧
    (processHtmlDoc testConfig [] "dist/client" []
      ⟨[], ["\x7b\n  \"name\": \"x\"\n\x7d"]⟩).2 = true := by
  decide

/-- C8: the attribute pass never rewrites an anchor `href` whose value
does not end in `.html`, `.css`, `.js` or `.json` (case-insensitively),
whatever the mapping contains. -/
theorem claim_C8 (cfg : AssetConfig) (m : AssetMappings) (el : Element) (v : String)
    (htag : jsToLower el.tag = "a")
    (hhref : el.href = some v)
    (hext : anchorHrefExtOk v = false) :
    ((attrStep cfg m el).1).href = some v := by
  rcases eq_or_ne v "" with rfl | hv
  · simp [attrStep, hhref, htag, hext]
  · simp [attrStep, hhref, htag, hext, hv]

/-- C8 witness: `/report.pdf` is left alone although `report.pdf` is a
mapped key. -/
theorem claim_C8_witness :
    truthyLookup [("report.pdf", "assets/report-ab12cd34.pdf")] "report.pdf" =
      some "assets/report-ab12cd34.pdf" ∧
    ((attrStep testConfig [("report.pdf", "assets/report-ab12cd34.pdf")]
        { tag := "a", href := some "/report.pdf" }).1).href =
      some "/report.pdf" :=
  ⟨by decide,
    claim_C8 testConfig [("report.pdf", "assets/report-ab12cd34.pdf")]
      { tag := "a", href := some "/report.pdf" } "/report.pdf"
      (by decide) rfl (by decide)⟩

/-- C9: the scanner's string contract.  With `p` the derived key (base
URL stripped when present, query/fragment stripped, leading slashes
stripped): an unrecognized extension yields the empty set; a recognized
extension yields exactly the reference backed by `srcDir/<p>` when that
file exists, else the first recursive basename match under `srcDir` when
one exists, else the empty set. -/
theorem claim_C9 (str baseUrl srcDir : String) (fsFiles : List String) :
    (mediaExtOk (scannerKey str baseUrl) = false →
      findAssetsInString str baseUrl srcDir fsFiles = []) ∧
    (mediaExtOk (scannerKey str baseUrl) = true →
      fsFiles.contains (scannerKey str baseUrl) = true →
      findAssetsInString str baseUrl srcDir fsFiles =
        [⟨scannerKey str baseUrl, joinPath srcDir (scannerKey str baseUrl)⟩]) ∧
    (∀ f, mediaExtOk (scannerKey str baseUrl) = true →
      fsFiles.contains (scannerKey str baseUrl) = false →
      (fsFiles.filter
          (fun g => baseNameOf g == baseNameOf (scannerKey str baseUrl))).head? =
        some f →
      findAssetsInString str baseUrl srcDir fsFiles =
        [⟨scannerKey str baseUrl, joinPath srcDir f⟩]) ∧
    (mediaExtOk (scannerKey str baseUrl) = true →
      fsFiles.contains (scannerKey str baseUrl) = false →
      (fsFiles.filter
          (fun g => baseNameOf g == baseNameOf (scannerKey str baseUrl))).head? =
        none →
      findAssetsInString str baseUrl srcDir fsFiles = []) := by
  refine ⟨?_, ?_, ?_, ?_⟩
  · intro h
    unfold findAssetsInString
    unfold scannerKey at h
    simp only [h, Bool.not_false, if_true]
  · intro h1 h2
    unfold findAssetsInString scannerKey
    unfold scannerKey at h1 h2
    simp only [h1, h2, Bool.not_true, Bool.false_eq_true, if_false,
      eq_self_iff_true, if_true]
  · intro f h1 h2 h3
    unfold findAssetsInString scannerKey
    unfold scannerKey at h1 h2 h3
    simp only [h1, h2, h3, Bool.not_true, Bool.false_eq_true, if_false]
  · intro h1 h2 h3
    unfold findAssetsInString
    unfold scannerKey at h1 h2 h3
    simp only [h1, h2, h3, Bool.not_true, Bool.false_eq_true, if_false]

/-- C9 witness: an absolute reference with a query string resolving to a
directly existing source file. -/
theorem claim_C9_witness :
    mediaExtOk (scannerKey "https://test.com/images/logo.png?v=1" "https://test.com") =
      true ∧
    findAssetsInString "https://test.com/images/logo.png?v=1" "https://test.com"
        "src" ["images/logo.png"] =
      [⟨"images/logo.png", "src/images/logo.png"⟩] :=
  ⟨by decide,
    ((claim_C9 "https://test.com/images/logo.png?v=1" "https://test.com" "src"
        ["images/logo.png"]).2.1 (by decide) (by decide)).trans (by decide)⟩

/-- C10 counterexample.  As stated the claim fails when the mapped hashed
path is the empty string: the truthiness test treats the entry as absent
and the URL is returned unchanged instead of becoming `"/"`. -/
theorem claim_C10_counterexample :
    jsStartsWith "/a" testConfig.siteBaseUrl = false ∧
    lookupKV [("a", "")] (stripLeadingSlashes "/a") = some "" ∧
    updateUrl "/a" testConfig [("a", "")] ≠ "/" ++ "" := by
  decide

/-- C10 (amended): for every URL that does not start with `siteBaseUrl`
and whose lookup key (the URL with leading slashes stripped) is mapped to
a nonempty hashed path, `updateUrl` returns `"/" ++ hashedPath`, so a
relative reference without a leading slash comes back root-absolute. -/
theorem claim_C10_amended (url : String) (cfg : AssetConfig) (m : AssetMappings)
    (v : String)
    (habs : jsStartsWith url cfg.siteBaseUrl = false)
    (hv : lookupKV m (stripLeadingSlashes url) = some v)
    (hne : v ≠ "") :
    updateUrl url cfg m = "/" ++ v := by
  unfold updateUrl
  rw [habs]
  simp only [Bool.false_eq_true, if_false]
  rw [truthyLookup_some m _ v hv hne]

/-- C3 code-bug exhibit: for an output file sitting directly at the
assets-subdirectory root, `path.parse` yields the directory string
`"assets"`, which the regex `/^assets\//` leaves unchanged, so the file is
registered under the key `assets/logo.svg` instead of `logo.svg`, and the
bare-key branch (guarded by `!directory`) never fires even though the
code's own comment says root-level files also get a bare-name key. -/
theorem claim_C3_code_bug :
    createAssetMappings "dist/client" ["dist/client/assets/logo-ab12cd34.svg"] =
      [("assets/logo.svg", "assets/logo-ab12cd34.svg")] ∧
    lookupKV
        (createAssetMappings "dist/client" ["dist/client/assets/logo-ab12cd34.svg"])
        "logo.svg" = none := by
  decide

/-- C10 witness: a bare relative reference gains a leading slash. -/
theorem claim_C10_witness :
    jsStartsWith "images/logo.png" testConfig.siteBaseUrl = false ∧
    updateUrl "images/logo.png" testConfig
        [("images/logo.png", "assets/images/logo-ab12cd34.png")] =
      "/" ++ "assets/images/logo-ab12cd34.png" :=
  ⟨by decide, claim_C10_amended "images/logo.png" testConfig
    [("images/logo.png", "assets/images/logo-ab12cd34.png")]
    "assets/images/logo-ab12cd34.png" (by decide) (by decide) (by decide)⟩

end ViteMPA
